import Mathlib

/-!
Shallow embedding of `src/allocation.rs` from the `recs` repository:
a generational index allocator and its companion generational array.

Representation choices:
* `usize` indices and `u64` generations are modelled as `Nat`; the spec
  declares generation-counter overflow out of scope (spec sections 7 and 9),
  and no operation here depends on the integer width.
* Rust `Vec` is modelled as `List`, indexed from the front exactly like the
  vector.  The free list is used by the Rust code as a stack via
  `Vec::push`/`Vec::pop` at the *end*; we model that stack with the list
  *head* as the top of the stack (push is cons, pop takes the head), which
  is the same abstract stack.
* `&self`/`&mut self` methods become pure functions; a method that mutates
  returns the new state, so "no side effect" claims are captured by the
  function's type.
-/

namespace Recs

/-- Rust struct `GenerationalIndex`: an index plus a generation counter. -/
structure GenerationalIndex where
  index : Nat
  generation : Nat
deriving DecidableEq, Repr

/-- Rust struct `AllocatorEntry`: per-slot liveness flag and generation. -/
structure AllocatorEntry where
  is_live : Bool
  generation : Nat
deriving DecidableEq, Repr

/-- Rust struct `GenerationalIndexAllocator`: the slot table and the free list
(free-list top is the list head, see the module comment). -/
structure GenerationalIndexAllocator where
  entries : List AllocatorEntry
  free : List Nat
deriving DecidableEq, Repr

namespace GenerationalIndexAllocator

/-- `GenerationalIndexAllocator::new`: empty slot table, empty free list. -/
def new : GenerationalIndexAllocator :=
  { entries := [], free := [] }

/-- The fresh-slot path of `allocate` (lines 53-65 of the Rust source):
append a brand-new live slot with generation 0. -/
def allocateNew (s : GenerationalIndexAllocator) :
    GenerationalIndexAllocator × GenerationalIndex :=
  ({ entries := s.entries ++ [{ is_live := true, generation := 0 }],
     free := s.free },
   { index := s.entries.length, generation := 0 })

/-- `GenerationalIndexAllocator::allocate`: pop the free list if possible;
if the popped index names an in-range dead slot, revive it with a bumped
generation; otherwise (defensively) fall through to a fresh slot.  Note the
popped index stays popped on the fall-through paths, as in the source. -/
def allocate (s : GenerationalIndexAllocator) :
    GenerationalIndexAllocator × GenerationalIndex :=
  match s.free with
  | potential_index :: rest =>
    match s.entries[potential_index]? with
    | some e =>
      if !e.is_live then
        ({ entries := s.entries.set potential_index
              { is_live := true, generation := e.generation + 1 },
           free := rest },
         { index := potential_index, generation := e.generation + 1 })
      else
        allocateNew { entries := s.entries, free := rest }
    | none => allocateNew { entries := s.entries, free := rest }
  | [] => allocateNew s

/-- `GenerationalIndexAllocator::deallocate`: returns `false` on an
out-of-range, dead, or generation-mismatched handle; otherwise kills the
slot, pushes its index on the free list and returns `true`. -/
def deallocate (s : GenerationalIndexAllocator) (index : GenerationalIndex) :
    GenerationalIndexAllocator × Bool :=
  match s.entries[index.index]? with
  | some e =>
    if !e.is_live then (s, false)
    else if e.generation != index.generation then (s, false)
    else
      ({ entries := s.entries.set index.index
            { is_live := false, generation := e.generation },
         free := index.index :: s.free },
       true)
  | none => (s, false)

/-- `GenerationalIndexAllocator::is_live`: in range, live, matching
generation.  A pure query (`&self` in the source). -/
def is_live (s : GenerationalIndexAllocator) (index : GenerationalIndex) :
    Bool :=
  match s.entries[index.index]? with
  | some e => e.generation == index.generation && e.is_live
  | none => false

end GenerationalIndexAllocator

/-- Rust struct `ArrayEntry<T>`: a stored value stamped with the generation
of the handle that stored it. -/
structure ArrayEntry (T : Type) where
  value : T
  generation : Nat
deriving DecidableEq, Repr

/-- Rust tuple struct `GenerationalIndexArray<T>(Vec<Option<ArrayEntry<T>>>)`. -/
structure GenerationalIndexArray (T : Type) where
  data : List (Option (ArrayEntry T))
deriving DecidableEq, Repr

namespace GenerationalIndexArray

/-- `GenerationalIndexArray::new`: empty storage. -/
def new (T : Type) : GenerationalIndexArray T := { data := [] }

/-- The `while self.0.len() <= inx + 1 { self.0.push(None); }` loop of
`set`: pad the vector with `None` until its length exceeds `inx + 1`. -/
def extendData {T : Type} (data : List (Option (ArrayEntry T))) (inx : Nat) :
    List (Option (ArrayEntry T)) :=
  data ++ List.replicate (inx + 2 - data.length) none

/-- `GenerationalIndexArray::set`: grow the storage as needed, then
overwrite position `index.index` with the value stamped by the *handle's*
generation. -/
def set {T : Type} (a : GenerationalIndexArray T) (index : GenerationalIndex)
    (value : T) : GenerationalIndexArray T :=
  { data := (extendData a.data index.index).set index.index
      (some { value := value, generation := index.generation }) }

/-- `GenerationalIndexArray::get`: length check, then return the stored
value iff the position is occupied and its stamp equals the handle's
generation. -/
def get {T : Type} (a : GenerationalIndexArray T)
    (index : GenerationalIndex) : Option T :=
  if a.data.length ≤ index.index then none
  else
    match a.data.getD index.index none with
    | none => none
    | some entry =>
      if index.generation == entry.generation then some entry.value
      else none

/-- `GenerationalIndexArray::get_mut`: same length check and lookup rule as
`get`; the source returns `Option<&mut T>`, embedded here as the value
looked up (the lookup itself does not modify the array). -/
def get_mut {T : Type} (a : GenerationalIndexArray T)
    (index : GenerationalIndex) : Option T :=
  if a.data.length ≤ index.index then none
  else
    match a.data.getD index.index none with
    | none => none
    | some entry =>
      if index.generation == entry.generation then some entry.value
      else none

end GenerationalIndexArray

/-- A single mutating call on the allocator: used to describe the states
reachable from `new` by any sequence of `allocate`/`deallocate` calls. -/
inductive Op where
  | alloc : Op
  | dealloc : GenerationalIndex → Op
deriving DecidableEq, Repr

/-- Apply one allocator call, keeping the resulting state. -/
def step (s : GenerationalIndexAllocator) (op : Op) :
    GenerationalIndexAllocator :=
  match op with
  | Op.alloc => (GenerationalIndexAllocator.allocate s).1
  | Op.dealloc h => (GenerationalIndexAllocator.deallocate s h).1

/-- The allocator state reached from `new` by a sequence of calls. -/
def run (ops : List Op) : GenerationalIndexAllocator :=
  ops.foldl step GenerationalIndexAllocator.new

/-- The free-list bookkeeping invariant maintained by the allocator: free
indices are pairwise distinct and each names an in-range dead slot. -/
def FreeListInv (s : GenerationalIndexAllocator) : Prop :=
  s.free.Nodup ∧
  ∀ i ∈ s.free, ∃ e, s.entries[i]? = some e ∧ e.is_live = false

/-- True exactly when the next `allocate` would pop a free index and take
the defensive fall-through branch (lines 39-50 of the Rust source fail
their re-check: the popped index is out of range or names a live slot). -/
def defensiveFallThrough (s : GenerationalIndexAllocator) : Bool :=
  match s.free with
  | i :: _ =>
    match s.entries[i]? with
    | some e => e.is_live
    | none => true
  | [] => false

/-- The allocator state after `n` calls to `allocate` starting from
`new`, with no deallocations in between. -/
def runAllocN : Nat → GenerationalIndexAllocator
  | 0 => GenerationalIndexAllocator.new
  | n + 1 => (GenerationalIndexAllocator.allocate (runAllocN n)).1

/-- The handles returned, in order, by `n` calls to `allocate` starting
from `new`. -/
def allocHandles : Nat → List GenerationalIndex
  | 0 => []
  | n + 1 =>
    allocHandles n ++ [(GenerationalIndexAllocator.allocate (runAllocN n)).2]

/-!
Basic lemmas describing each branch of the allocator operations.
-/

namespace GenerationalIndexAllocator

theorem lt_of_getElem?_some {α : Type} {l : List α} {i : Nat} {a : α}
    (hx : l[i]? = some a) : i < l.length := by
  by_contra hlt
  rw [List.getElem?_eq_none (Nat.le_of_not_lt hlt)] at hx
  exact Option.noConfusion hx

theorem deallocate_eq_oob {s : GenerationalIndexAllocator}
    {h : GenerationalIndex} (hx : s.entries[h.index]? = none) :
    deallocate s h = (s, false) := by
  simp [deallocate, hx]

theorem deallocate_eq_dead {s : GenerationalIndexAllocator}
    {h : GenerationalIndex} {e : AllocatorEntry}
    (hx : s.entries[h.index]? = some e) (hd : e.is_live = false) :
    deallocate s h = (s, false) := by
  simp [deallocate, hx, hd]

theorem deallocate_eq_stale {s : GenerationalIndexAllocator}
    {h : GenerationalIndex} {e : AllocatorEntry}
    (hx : s.entries[h.index]? = some e) (hl : e.is_live = true)
    (hg : e.generation ≠ h.generation) :
    deallocate s h = (s, false) := by
  simp [deallocate, hx, hl, hg]

theorem deallocate_eq_ok {s : GenerationalIndexAllocator}
    {h : GenerationalIndex} {e : AllocatorEntry}
    (hx : s.entries[h.index]? = some e) (hl : e.is_live = true)
    (hg : e.generation = h.generation) :
    deallocate s h =
      ({ entries := s.entries.set h.index
            { is_live := false, generation := e.generation },
         free := h.index :: s.free }, true) := by
  simp [deallocate, hx, hl, hg]

theorem allocate_eq_fresh {s : GenerationalIndexAllocator}
    (hf : s.free = []) : allocate s = allocateNew s := by
  unfold allocate
  rw [hf]

theorem allocate_eq_reuse {s : GenerationalIndexAllocator}
    {i : Nat} {rest : List Nat} {e : AllocatorEntry}
    (hf : s.free = i :: rest) (hx : s.entries[i]? = some e)
    (hd : e.is_live = false) :
    allocate s =
      ({ entries := s.entries.set i
            { is_live := true, generation := e.generation + 1 },
         free := rest },
       { index := i, generation := e.generation + 1 }) := by
  simp [allocate, hf, hx, hd]

theorem is_live_true_iff {s : GenerationalIndexAllocator}
    {h : GenerationalIndex} :
    is_live s h = true ↔
      ∃ e, s.entries[h.index]? = some e ∧ e.is_live = true ∧
        e.generation = h.generation := by
  unfold is_live
  cases hx : s.entries[h.index]? with
  | none => simp
  | some e =>
    simp only [Bool.and_eq_true, beq_iff_eq, Option.some.injEq]
    constructor
    · rintro ⟨hg, hl⟩
      exact ⟨e, rfl, hl, hg⟩
    · rintro ⟨e', he', hl, hg⟩
      cases he'
      exact ⟨hg, hl⟩

end GenerationalIndexAllocator

namespace GenerationalIndexArray

theorem length_extendData {T : Type} (data : List (Option (ArrayEntry T)))
    (inx : Nat) : (extendData data inx).length =
      data.length + (inx + 2 - data.length) := by
  simp [extendData]

theorem get_set_self {T : Type} (a : GenerationalIndexArray T)
    (h : GenerationalIndex) (v : T) : get (set a h v) h = some v := by
  have hlt : h.index < (extendData a.data h.index).length := by
    rw [length_extendData]
    omega
  unfold get set
  rw [List.length_set, if_neg (Nat.not_le.mpr hlt)]
  rw [List.getD_eq_getElem?_getD, List.getElem?_set_eq_of_lt _ hlt]
  simp

theorem get_set_same_index_other_gen {T : Type} (a : GenerationalIndexArray T)
    (h h2 : GenerationalIndex) (v : T) (hidx : h2.index = h.index)
    (hgen : h2.generation ≠ h.generation) :
    get (set a h v) h2 = none := by
  have hlt : h.index < (extendData a.data h.index).length := by
    rw [length_extendData]
    omega
  unfold get set
  rw [hidx, List.length_set, if_neg (Nat.not_le.mpr hlt)]
  rw [List.getD_eq_getElem?_getD, List.getElem?_set_eq_of_lt _ hlt]
  simp [hgen]

end GenerationalIndexArray

open GenerationalIndexAllocator GenerationalIndexArray

theorem realloc_handle {s : GenerationalIndexAllocator}
    {h : GenerationalIndex} (hl : is_live s h = true) :
    (allocate (deallocate s h).1).2 =
      { index := h.index, generation := h.generation + 1 } := by
  obtain ⟨e, hx, hlive, hg⟩ := is_live_true_iff.mp hl
  have hlt : h.index < s.entries.length := lt_of_getElem?_some hx
  have hs1 : (deallocate s h).1 =
      { entries := s.entries.set h.index
          { is_live := false, generation := e.generation },
        free := h.index :: s.free } := by
    rw [deallocate_eq_ok hx hlive hg]
  have hx1 :
      (GenerationalIndexAllocator.entries
          { entries := s.entries.set h.index
              { is_live := false, generation := e.generation },
            free := h.index :: s.free })[h.index]? =
        some { is_live := false, generation := e.generation } :=
    List.getElem?_set_eq_of_lt _ hlt
  have hal := allocate_eq_reuse rfl hx1 rfl
  rw [hs1, hal, hg]

/-- C1 counterexample: run the claim's exact scenario concretely.  Allocate
`h = {0,0}`, store 42 under `h`, deallocate `h` (succeeds), allocate again
(recycles the slot into `h2 = {0,1}`), with no further `set`.  The claim
predicts `get(h) = None`; the code returns `Some 42`, because the array
stamped the entry with `h`'s generation and never consults the allocator.
The claim's other half, `get(h2) = None`, does hold. -/
theorem C1_counterexample :
    (deallocate (allocate GenerationalIndexAllocator.new).1
        { index := 0, generation := 0 }).2 = true ∧
    (allocate (deallocate (allocate GenerationalIndexAllocator.new).1
        { index := 0, generation := 0 }).1).2 =
      { index := 0, generation := 1 } ∧
    get (set (GenerationalIndexArray.new Nat)
          { index := 0, generation := 0 } 42)
        { index := 0, generation := 1 } = none ∧
    ¬ (get (set (GenerationalIndexArray.new Nat)
          { index := 0, generation := 0 } 42)
        { index := 0, generation := 0 } = none) := by
  decide

/-- C1 (amended): for a live handle `h` used to `set` a value `v`, after
`deallocate(h)` succeeds and the next `allocate()` recycles the slot into
`h2`, with no further `set`: `get(h)` still returns `Some v` (the stored
stamp equals `h`'s generation; the array does not consult the allocator)
and `get(h2)` returns `None` (nothing is stored under the new
generation). -/
theorem C1_get_after_recycle {T : Type} (s : GenerationalIndexAllocator)
    (a : GenerationalIndexArray T) (h : GenerationalIndex) (v : T)
    (hl : is_live s h = true) :
    get (set a h v) h = some v ∧
    get (set a h v) (allocate (deallocate s h).1).2 = none := by
  refine ⟨get_set_self a h v, ?_⟩
  rw [realloc_handle hl]
  exact get_set_same_index_other_gen a h
    { index := h.index, generation := h.generation + 1 } v rfl
    (Nat.succ_ne_self h.generation)

/-- C1 witness: the amended statement at the concrete scenario above. -/
theorem C1_get_after_recycle_witness :
    get (set (GenerationalIndexArray.new Nat)
          { index := 0, generation := 0 } 42)
        { index := 0, generation := 0 } = some 42 ∧
    get (set (GenerationalIndexArray.new Nat)
          { index := 0, generation := 0 } 42)
        (allocate (deallocate (allocate GenerationalIndexAllocator.new).1
          { index := 0, generation := 0 }).1).2 = none :=
  C1_get_after_recycle (allocate GenerationalIndexAllocator.new).1
    (GenerationalIndexArray.new Nat) { index := 0, generation := 0 } 42
    (by decide)

/-- C2: for every allocator state and handle `h` live in it, deallocating
`h` and immediately allocating yields `h2` with the same index, generation
bumped by one, and `h2 ≠ h`. -/
theorem C2_reuse_invalidation (s : GenerationalIndexAllocator)
    (h : GenerationalIndex) (hl : is_live s h = true) :
    (allocate (deallocate s h).1).2.index = h.index ∧
    (allocate (deallocate s h).1).2.generation = h.generation + 1 ∧
    h ≠ (allocate (deallocate s h).1).2 := by
  rw [realloc_handle hl]
  refine ⟨rfl, rfl, ?_⟩
  intro hc
  have hgen : h.generation = h.generation + 1 :=
    congrArg GenerationalIndex.generation hc
  omega

/-- C2 witness: deallocate-then-allocate on the first handle of a fresh
allocator yields `{0, 1}`. -/
theorem C2_reuse_invalidation_witness :
    (allocate (deallocate (allocate GenerationalIndexAllocator.new).1
        { index := 0, generation := 0 }).1).2.index = 0 ∧
    (allocate (deallocate (allocate GenerationalIndexAllocator.new).1
        { index := 0, generation := 0 }).1).2.generation = 0 + 1 ∧
    ({ index := 0, generation := 0 } : GenerationalIndex) ≠
      (allocate (deallocate (allocate GenerationalIndexAllocator.new).1
        { index := 0, generation := 0 }).1).2 :=
  C2_reuse_invalidation (allocate GenerationalIndexAllocator.new).1
    { index := 0, generation := 0 } (by decide)

/-- C4: `deallocate(h)` returns false leaving the state unchanged exactly
when `h.index` is out of range, the slot is already dead, or the slot's
generation differs from `h.generation`; otherwise it marks the slot dead,
pushes `h.index` on the free list and returns true; and deallocating a
live handle twice returns true then false with the state after the second
call equal to the state after the first. -/
theorem C4_deallocate_spec (s : GenerationalIndexAllocator)
    (h : GenerationalIndex) :
    (((deallocate s h).2 = false ∧ (deallocate s h).1 = s) ↔
      (s.entries.length ≤ h.index ∨
       ∃ e, s.entries[h.index]? = some e ∧
         (e.is_live = false ∨ e.generation ≠ h.generation))) ∧
    ((∃ e, s.entries[h.index]? = some e ∧ e.is_live = true ∧
        e.generation = h.generation) →
      ∃ e, s.entries[h.index]? = some e ∧
        deallocate s h =
          ({ entries := s.entries.set h.index
                { is_live := false, generation := e.generation },
             free := h.index :: s.free }, true)) ∧
    (is_live s h = true →
      (deallocate s h).2 = true ∧
      (deallocate (deallocate s h).1 h).2 = false ∧
      (deallocate (deallocate s h).1 h).1 = (deallocate s h).1) := by
  cases hx : s.entries[h.index]? with
  | none =>
    have hd := deallocate_eq_oob hx
    have hlen : s.entries.length ≤ h.index := List.getElem?_eq_none_iff.mp hx
    refine ⟨⟨fun _ => Or.inl hlen, fun _ => by rw [hd]; exact ⟨rfl, rfl⟩⟩,
      ?_, ?_⟩
    · rintro ⟨e, he, -⟩
      exact Option.noConfusion he
    · intro hlive
      obtain ⟨e, he, -⟩ := is_live_true_iff.mp hlive
      rw [hx] at he
      exact Option.noConfusion he
  | some e =>
    cases hlv : e.is_live with
    | false =>
      have hd := deallocate_eq_dead hx hlv
      refine ⟨⟨fun _ => Or.inr ⟨e, rfl, Or.inl hlv⟩,
        fun _ => by rw [hd]; exact ⟨rfl, rfl⟩⟩, ?_, ?_⟩
      · rintro ⟨e', he', hl', -⟩
        cases he'
        rw [hlv] at hl'
        exact Bool.noConfusion hl'
      · intro hlive
        obtain ⟨e', he', hl', -⟩ := is_live_true_iff.mp hlive
        rw [hx] at he'
        cases he'
        rw [hlv] at hl'
        exact Bool.noConfusion hl'
    | true =>
      by_cases hg : e.generation = h.generation
      · have hd := deallocate_eq_ok hx hlv hg
        have hlt : h.index < s.entries.length := lt_of_getElem?_some hx
        refine ⟨⟨?_, ?_⟩, fun _ => ⟨e, rfl, hd⟩, fun _ => ?_⟩
        · rintro ⟨hb, -⟩
          rw [hd] at hb
          exact Bool.noConfusion hb
        · rintro (hlen | ⟨e', he', hbad⟩)
          · exact absurd hlen (Nat.not_le.mpr hlt)
          · cases he'
            rcases hbad with hdead | hgen
            · rw [hlv] at hdead
              exact Bool.noConfusion hdead
            · exact absurd hg hgen
        · have hs1 : (deallocate s h).1 =
              { entries := s.entries.set h.index
                  { is_live := false, generation := e.generation },
                free := h.index :: s.free } := by
            rw [hd]
          have hb1 : (deallocate s h).2 = true := by rw [hd]
          have hx1 :
              (GenerationalIndexAllocator.entries
                  { entries := s.entries.set h.index
                      { is_live := false, generation := e.generation },
                    free := h.index :: s.free })[h.index]? =
                some { is_live := false, generation := e.generation } :=
            List.getElem?_set_eq_of_lt _ hlt
          have hd2 := deallocate_eq_dead hx1 rfl
          refine ⟨hb1, ?_, ?_⟩
          · rw [hs1, hd2]
          · rw [hs1, hd2]
      · have hd := deallocate_eq_stale hx hlv hg
        refine ⟨⟨fun _ => Or.inr ⟨e, rfl, Or.inr hg⟩,
          fun _ => by rw [hd]; exact ⟨rfl, rfl⟩⟩, ?_, ?_⟩
        · rintro ⟨e', he', -, hg'⟩
          cases he'
          exact absurd hg' hg
        · intro hlive
          obtain ⟨e', he', -, hg'⟩ := is_live_true_iff.mp hlive
          rw [hx] at he'
          cases he'
          exact absurd hg' hg

/-- C4 witness: deallocating the only live handle of a one-slot allocator
twice returns true then false and the state is unchanged by the second
call. -/
theorem C4_deallocate_spec_witness :
    (deallocate (allocate GenerationalIndexAllocator.new).1
        { index := 0, generation := 0 }).2 = true ∧
    (deallocate (deallocate (allocate GenerationalIndexAllocator.new).1
          { index := 0, generation := 0 }).1
        { index := 0, generation := 0 }).2 = false ∧
    (deallocate (deallocate (allocate GenerationalIndexAllocator.new).1
          { index := 0, generation := 0 }).1
        { index := 0, generation := 0 }).1 =
      (deallocate (allocate GenerationalIndexAllocator.new).1
        { index := 0, generation := 0 }).1 :=
  (C4_deallocate_spec (allocate GenerationalIndexAllocator.new).1
    { index := 0, generation := 0 }).2.2 (by decide)

/-- C7: `is_live(h)` returns true iff `h.index` is in range of the slot
table, the slot at `h.index` is live, and the slot's generation equals
`h.generation`.  The query leaves the allocator state unchanged, which the
embedding captures by type: `is_live` consumes the state and returns only a
`Bool`, exactly as the Rust method takes `&self`. -/
theorem C7_is_live_spec (s : GenerationalIndexAllocator)
    (h : GenerationalIndex) :
    is_live s h = true ↔
      (h.index < s.entries.length ∧
       ∃ e, s.entries[h.index]? = some e ∧ e.is_live = true ∧
         e.generation = h.generation) := by
  rw [is_live_true_iff]
  constructor
  · rintro ⟨e, hx, hl, hg⟩
    exact ⟨lt_of_getElem?_some hx, e, hx, hl, hg⟩
  · rintro ⟨-, he⟩
    exact he

/-- C8: set/get round-trip — for every array state, live handle `h` and
value `v`, `set(h, v)` followed by `get(h)` returns `Some(v)`. -/
theorem C8_set_get_roundtrip {T : Type} (s : GenerationalIndexAllocator)
    (a : GenerationalIndexArray T) (h : GenerationalIndex) (v : T)
    (_hl : is_live s h = true) :
    get (set a h v) h = some v :=
  get_set_self a h v

/-- C8 witness: the round-trip at a concrete live handle. -/
theorem C8_set_get_roundtrip_witness :
    is_live (allocate GenerationalIndexAllocator.new).1
        { index := 0, generation := 0 } = true ∧
    get (set (GenerationalIndexArray.new Nat)
          { index := 0, generation := 0 } 42)
        { index := 0, generation := 0 } = some 42 :=
  ⟨by decide,
   C8_set_get_roundtrip (allocate GenerationalIndexAllocator.new).1
     (GenerationalIndexArray.new Nat) { index := 0, generation := 0 } 42
     (by decide)⟩

/-- C9: `get` and `get_mut` succeed on exactly the same handles and return
the same stored value; neither modifies the array, which the embedding
captures by type: both consume the array and return only the lookup
result. -/
theorem C9_get_eq_get_mut {T : Type} (a : GenerationalIndexArray T)
    (h : GenerationalIndex) : a.get h = a.get_mut h := rfl

/-- C10: `set` only touches its own position — a `get` through any handle
with a different index is unchanged by the `set`. -/
theorem C10_set_frame {T : Type} (a : GenerationalIndexArray T)
    (h h2 : GenerationalIndex) (v : T) (hne : h2.index ≠ h.index) :
    get (set a h v) h2 = get a h2 := by
  unfold GenerationalIndexArray.get GenerationalIndexArray.set
  rw [List.length_set, length_extendData]
  rw [List.getD_eq_getElem?_getD, List.getD_eq_getElem?_getD]
  rw [List.getElem?_set_ne (Ne.symm hne)]
  unfold extendData
  rw [List.getElem?_append]
  by_cases hj : h2.index < a.data.length
  · rw [if_pos hj, if_neg (by omega), if_neg (by omega)]
  · rw [if_neg hj, if_pos (Nat.le_of_not_lt hj)]
    by_cases hL : a.data.length + (h.index + 2 - a.data.length) ≤ h2.index
    · rw [if_pos hL]
    · rw [if_neg hL, List.getElem?_replicate, if_pos (by omega)]
      simp

/-- C10 witness: setting index 1 leaves a value stored at index 0 visible,
at a concrete input. -/
theorem C10_set_frame_witness :
    get (set (set (GenerationalIndexArray.new Nat)
            { index := 0, generation := 0 } 7)
          { index := 1, generation := 0 } 9)
        { index := 0, generation := 0 } =
      get (set (GenerationalIndexArray.new Nat)
            { index := 0, generation := 0 } 7)
        { index := 0, generation := 0 } :=
  C10_set_frame (set (GenerationalIndexArray.new Nat)
      { index := 0, generation := 0 } 7)
    { index := 1, generation := 0 } { index := 0, generation := 0 } 9
    (by decide)

/-- C5: free-list reuse is LIFO — deallocating two live handles `a` then
`b` (distinct indices) succeeds, and the next two allocations reuse index
`b.index` then `a.index`. -/
theorem C5_lifo_reuse (s : GenerationalIndexAllocator)
    (a b : GenerationalIndex) (hla : is_live s a = true)
    (hlb : is_live s b = true) (hne : a.index ≠ b.index) :
    (deallocate s a).2 = true ∧
    (deallocate (deallocate s a).1 b).2 = true ∧
    (allocate (deallocate (deallocate s a).1 b).1).2.index = b.index ∧
    (allocate (allocate
        (deallocate (deallocate s a).1 b).1).1).2.index = a.index := by
  obtain ⟨ea, hxa, hlivea, hga⟩ := is_live_true_iff.mp hla
  obtain ⟨eb, hxb, hliveb, hgb⟩ := is_live_true_iff.mp hlb
  have hlta : a.index < s.entries.length := lt_of_getElem?_some hxa
  have hltb : b.index < s.entries.length := lt_of_getElem?_some hxb
  have hda := deallocate_eq_ok hxa hlivea hga
  have hs1 : (deallocate s a).1 =
      { entries := s.entries.set a.index
          { is_live := false, generation := ea.generation },
        free := a.index :: s.free } := by
    rw [hda]
  have hb1 : (deallocate s a).2 = true := by rw [hda]
  have hxb1 :
      (GenerationalIndexAllocator.entries
          { entries := s.entries.set a.index
              { is_live := false, generation := ea.generation },
            free := a.index :: s.free })[b.index]? = some eb := by
    show (s.entries.set a.index _)[b.index]? = some eb
    rw [List.getElem?_set_ne hne]
    exact hxb
  have hdb := deallocate_eq_ok hxb1 hliveb hgb
  have hs2 : (deallocate (deallocate s a).1 b).1 =
      { entries := (s.entries.set a.index
            { is_live := false, generation := ea.generation }).set b.index
          { is_live := false, generation := eb.generation },
        free := b.index :: a.index :: s.free } := by
    rw [hs1, hdb]
  have hb2 : (deallocate (deallocate s a).1 b).2 = true := by
    rw [hs1, hdb]
  have hxb2 :
      (GenerationalIndexAllocator.entries
          { entries := (s.entries.set a.index
                { is_live := false, generation := ea.generation }).set b.index
              { is_live := false, generation := eb.generation },
            free := b.index :: a.index :: s.free })[b.index]? =
        some { is_live := false, generation := eb.generation } := by
    show ((s.entries.set a.index _).set b.index _)[b.index]? = some _
    refine List.getElem?_set_eq_of_lt _ ?_
    rw [List.length_set]
    exact hltb
  have hal1 := allocate_eq_reuse rfl hxb2 rfl
  have hs3 : (allocate (deallocate (deallocate s a).1 b).1).1 =
      { entries := ((s.entries.set a.index
              { is_live := false, generation := ea.generation }).set b.index
            { is_live := false, generation := eb.generation }).set b.index
          { is_live := true, generation := eb.generation + 1 },
        free := a.index :: s.free } := by
    rw [hs2, hal1]
  have hi1 : (allocate (deallocate (deallocate s a).1 b).1).2.index =
      b.index := by
    rw [hs2, hal1]
  have hxa3 :
      (GenerationalIndexAllocator.entries
          { entries := ((s.entries.set a.index
                  { is_live := false,
                    generation := ea.generation }).set b.index
                { is_live := false, generation := eb.generation }).set b.index
              { is_live := true, generation := eb.generation + 1 },
            free := a.index :: s.free })[a.index]? =
        some { is_live := false, generation := ea.generation } := by
    show (((s.entries.set a.index _).set b.index _).set b.index _)[a.index]? =
      some _
    rw [List.getElem?_set_ne (Ne.symm hne), List.getElem?_set_ne (Ne.symm hne)]
    exact List.getElem?_set_eq_of_lt _ hlta
  have hal2 := allocate_eq_reuse rfl hxa3 rfl
  have hi2 : (allocate (allocate
      (deallocate (deallocate s a).1 b).1).1).2.index = a.index := by
    rw [hs3, hal2]
  exact ⟨hb1, hb2, hi1, hi2⟩

/-- C5 witness: with two fresh handles `{0,0}` and `{1,0}`, deallocating
index 0 then index 1 makes the next two allocations reuse index 1 then
index 0. -/
theorem C5_lifo_reuse_witness :
    (deallocate (allocate (allocate GenerationalIndexAllocator.new).1).1
        { index := 0, generation := 0 }).2 = true ∧
    (deallocate (deallocate
          (allocate (allocate GenerationalIndexAllocator.new).1).1
          { index := 0, generation := 0 }).1
        { index := 1, generation := 0 }).2 = true ∧
    (allocate (deallocate (deallocate
          (allocate (allocate GenerationalIndexAllocator.new).1).1
          { index := 0, generation := 0 }).1
        { index := 1, generation := 0 }).1).2.index = 1 ∧
    (allocate (allocate (deallocate (deallocate
          (allocate (allocate GenerationalIndexAllocator.new).1).1
          { index := 0, generation := 0 }).1
        { index := 1, generation := 0 }).1).1).2.index = 0 :=
  C5_lifo_reuse (allocate (allocate GenerationalIndexAllocator.new).1).1
    { index := 0, generation := 0 } { index := 1, generation := 0 }
    (by decide) (by decide) (by decide)

theorem runAllocN_free_nil_length (n : Nat) :
    (runAllocN n).free = [] ∧ (runAllocN n).entries.length = n := by
  induction n with
  | zero => exact ⟨rfl, rfl⟩
  | succ n ih =>
    obtain ⟨hf, hl⟩ := ih
    have hfresh := allocate_eq_fresh hf
    constructor
    · show ((allocate (runAllocN n)).1).free = []
      rw [hfresh]
      exact hf
    · show ((allocate (runAllocN n)).1).entries.length = n + 1
      rw [hfresh]
      show ((runAllocN n).entries ++ [_]).length = n + 1
      rw [List.length_append, hl]
      exact rfl

/-- C6: from a fresh allocator, `N` allocations with no deallocations
yield handles with indices `0, 1, ..., N-1` in order, each with
generation 0. -/
theorem C6_monotonic_indices (N : Nat) :
    allocHandles N = (List.range N).map
      (fun i => { index := i, generation := 0 }) := by
  induction N with
  | zero => rfl
  | succ n ih =>
    obtain ⟨hf, hl⟩ := runAllocN_free_nil_length n
    have h2 : (allocate (runAllocN n)).2 =
        { index := n, generation := 0 } := by
      rw [allocate_eq_fresh hf]
      show ({ index := (runAllocN n).entries.length, generation := 0 } :
        GenerationalIndex) = { index := n, generation := 0 }
      rw [hl]
    show allocHandles n ++ [(allocate (runAllocN n)).2] = _
    rw [ih, h2, List.range_succ, List.map_append]
    exact rfl

theorem allocate_eq_fallthrough_oob {s : GenerationalIndexAllocator}
    {i : Nat} {rest : List Nat} (hf : s.free = i :: rest)
    (hx : s.entries[i]? = none) :
    allocate s = allocateNew { entries := s.entries, free := rest } := by
  simp [allocate, hf, hx, allocateNew]

theorem allocate_eq_fallthrough_live {s : GenerationalIndexAllocator}
    {i : Nat} {rest : List Nat} {e : AllocatorEntry}
    (hf : s.free = i :: rest) (hx : s.entries[i]? = some e)
    (hl : e.is_live = true) :
    allocate s = allocateNew { entries := s.entries, free := rest } := by
  simp [allocate, hf, hx, hl, allocateNew]

theorem freeListInv_def (s : GenerationalIndexAllocator) :
    FreeListInv s ↔
      (s.free.Nodup ∧
       ∀ i ∈ s.free, ∃ e, s.entries[i]? = some e ∧ e.is_live = false) :=
  Iff.rfl

theorem freeListInv_new : FreeListInv GenerationalIndexAllocator.new :=
  ⟨List.nodup_nil, fun i hi => absurd hi (List.not_mem_nil i)⟩

theorem freeListInv_allocate {s : GenerationalIndexAllocator}
    (hinv : FreeListInv s) : FreeListInv (allocate s).1 := by
  obtain ⟨hnd, hmem⟩ := hinv
  cases hf : s.free with
  | nil =>
    have hfree : ((allocate s).1).free = [] := by
      rw [allocate_eq_fresh hf]
      exact hf
    rw [freeListInv_def, hfree]
    exact ⟨List.nodup_nil, fun i hi => absurd hi (List.not_mem_nil i)⟩
  | cons i rest =>
    have hnotin : i ∉ rest := by
      rw [hf] at hnd
      exact (List.nodup_cons.mp hnd).1
    have hndrest : rest.Nodup := by
      rw [hf] at hnd
      exact (List.nodup_cons.mp hnd).2
    obtain ⟨e, hx, hdead⟩ :=
      hmem i (by rw [hf]; exact List.mem_cons_self i rest)
    have hre := allocate_eq_reuse hf hx hdead
    have hfree : ((allocate s).1).free = rest := by rw [hre]
    have hent : ((allocate s).1).entries =
        s.entries.set i
          { is_live := true, generation := e.generation + 1 } := by
      rw [hre]
    rw [freeListInv_def, hfree, hent]
    refine ⟨hndrest, ?_⟩
    intro j hj
    have hji : j ≠ i := fun hc => hnotin (hc ▸ hj)
    obtain ⟨e', hx', hdead'⟩ :=
      hmem j (by rw [hf]; exact List.mem_cons_of_mem i hj)
    refine ⟨e', ?_, hdead'⟩
    rw [List.getElem?_set_ne (Ne.symm hji)]
    exact hx'

theorem freeListInv_deallocate {s : GenerationalIndexAllocator}
    {h : GenerationalIndex} (hinv : FreeListInv s) :
    FreeListInv (deallocate s h).1 := by
  obtain ⟨hnd, hmem⟩ := hinv
  cases hx : s.entries[h.index]? with
  | none =>
    have hs' : (deallocate s h).1 = s := by rw [deallocate_eq_oob hx]
    rw [hs']
    exact ⟨hnd, hmem⟩
  | some e =>
    cases hlv : e.is_live with
    | false =>
      have hs' : (deallocate s h).1 = s := by
        rw [deallocate_eq_dead hx hlv]
      rw [hs']
      exact ⟨hnd, hmem⟩
    | true =>
      by_cases hg : e.generation = h.generation
      · have hd := deallocate_eq_ok hx hlv hg
        have hlt : h.index < s.entries.length := lt_of_getElem?_some hx
        have hfree : ((deallocate s h).1).free = h.index :: s.free := by
          rw [hd]
        have hent : ((deallocate s h).1).entries =
            s.entries.set h.index
              { is_live := false, generation := e.generation } := by
          rw [hd]
        have hnotin : h.index ∉ s.free := by
          intro hmem'
          obtain ⟨e', hx', hdead'⟩ := hmem h.index hmem'
          rw [hx] at hx'
          cases hx'
          rw [hlv] at hdead'
          exact Bool.noConfusion hdead'
        rw [freeListInv_def, hfree, hent]
        refine ⟨List.nodup_cons.mpr ⟨hnotin, hnd⟩, ?_⟩
        intro j hj
        rcases List.mem_cons.mp hj with hj0 | hj1
        · subst hj0
          exact ⟨{ is_live := false, generation := e.generation },
            List.getElem?_set_eq_of_lt _ hlt, rfl⟩
        · obtain ⟨e', hx', hdead'⟩ := hmem j hj1
          have hji : j ≠ h.index := by
            intro hc
            subst hc
            rw [hx] at hx'
            cases hx'
            rw [hlv] at hdead'
            exact Bool.noConfusion hdead'
          refine ⟨e', ?_, hdead'⟩
          rw [List.getElem?_set_ne (Ne.symm hji)]
          exact hx'
      · have hs' : (deallocate s h).1 = s := by
          rw [deallocate_eq_stale hx hlv hg]
        rw [hs']
        exact ⟨hnd, hmem⟩

theorem freeListInv_step {s : GenerationalIndexAllocator} (op : Op)
    (hinv : FreeListInv s) : FreeListInv (step s op) := by
  cases op with
  | alloc => exact freeListInv_allocate hinv
  | dealloc h => exact freeListInv_deallocate hinv

theorem freeListInv_foldl (ops : List Op) (s : GenerationalIndexAllocator)
    (hinv : FreeListInv s) : FreeListInv (ops.foldl step s) := by
  induction ops generalizing s with
  | nil => exact hinv
  | cons op rest ih => exact ih _ (freeListInv_step op hinv)

theorem freeListInv_run (ops : List Op) : FreeListInv (run ops) :=
  freeListInv_foldl ops _ freeListInv_new

theorem defensiveFallThrough_false {s : GenerationalIndexAllocator}
    (hinv : FreeListInv s) : defensiveFallThrough s = false := by
  obtain ⟨-, hmem⟩ := hinv
  cases hf : s.free with
  | nil => simp [defensiveFallThrough, hf]
  | cons i rest =>
    obtain ⟨e, hx, hdead⟩ :=
      hmem i (by rw [hf]; exact List.mem_cons_self i rest)
    simp [defensiveFallThrough, hf, hx, hdead]

theorem allocate_length_le (s : GenerationalIndexAllocator) :
    s.entries.length ≤ ((allocate s).1).entries.length := by
  cases hf : s.free with
  | nil =>
    have hent : ((allocate s).1).entries =
        s.entries ++ [{ is_live := true, generation := 0 }] := by
      rw [allocate_eq_fresh hf]
      exact rfl
    rw [hent, List.length_append]
    omega
  | cons i rest =>
    cases hx : s.entries[i]? with
    | none =>
      have hent : ((allocate s).1).entries =
          s.entries ++ [{ is_live := true, generation := 0 }] := by
        rw [allocate_eq_fallthrough_oob hf hx]
        exact rfl
      rw [hent, List.length_append]
      omega
    | some e =>
      cases hlv : e.is_live with
      | false =>
        have hent : ((allocate s).1).entries =
            s.entries.set i
              { is_live := true, generation := e.generation + 1 } := by
          rw [allocate_eq_reuse hf hx hlv]
        rw [hent, List.length_set]
      | true =>
        have hent : ((allocate s).1).entries =
            s.entries ++ [{ is_live := true, generation := 0 }] := by
          rw [allocate_eq_fallthrough_live hf hx hlv]
          exact rfl
        rw [hent, List.length_append]
        omega

theorem deallocate_length_eq (s : GenerationalIndexAllocator)
    (h : GenerationalIndex) :
    ((deallocate s h).1).entries.length = s.entries.length := by
  cases hx : s.entries[h.index]? with
  | none => rw [deallocate_eq_oob hx]
  | some e =>
    cases hlv : e.is_live with
    | false => rw [deallocate_eq_dead hx hlv]
    | true =>
      by_cases hg : e.generation = h.generation
      · have hent : ((deallocate s h).1).entries =
            s.entries.set h.index
              { is_live := false, generation := e.generation } := by
          rw [deallocate_eq_ok hx hlv hg]
        rw [hent, List.length_set]
      · rw [deallocate_eq_stale hx hlv hg]

theorem step_length_le (s : GenerationalIndexAllocator) (op : Op) :
    s.entries.length ≤ (step s op).entries.length := by
  cases op with
  | alloc => exact allocate_length_le s
  | dealloc h => exact Nat.le_of_eq (deallocate_length_eq s h).symm

theorem foldl_length_le (more : List Op) (s : GenerationalIndexAllocator) :
    s.entries.length ≤ (more.foldl step s).entries.length := by
  induction more generalizing s with
  | nil => exact Nat.le_refl _
  | cons op rest ih =>
    exact Nat.le_trans (step_length_le s op) (ih (step s op))

theorem run_append (ops more : List Op) :
    run (ops ++ more) = more.foldl step (run ops) := by
  unfold run
  rw [List.foldl_append]

/-- C3: in every state reachable from `new` by allocate/deallocate calls,
every free-list index is in range and names a dead slot (so the defensive
fall-through in `allocate` is never executed), and the slot table length
never decreases along any continuation of the run. -/
theorem C3_reachable_invariant (ops : List Op) :
    (∀ i ∈ (run ops).free,
        i < (run ops).entries.length ∧
        ∃ e, (run ops).entries[i]? = some e ∧ e.is_live = false) ∧
    defensiveFallThrough (run ops) = false ∧
    ∀ more : List Op,
      (run ops).entries.length ≤ (run (ops ++ more)).entries.length := by
  have hinv := freeListInv_run ops
  refine ⟨?_, defensiveFallThrough_false hinv, ?_⟩
  · intro i hi
    obtain ⟨e, hx, hdead⟩ := hinv.2 i hi
    exact ⟨lt_of_getElem?_some hx, e, hx, hdead⟩
  · intro more
    rw [run_append]
    exact foldl_length_le more (run ops)

/-- C3 witness: after one allocate and one deallocate, index 0 sits on the
free list, is in range, names a dead slot, the defensive branch would not
be taken, and a further allocate does not shrink the table. -/
theorem C3_reachable_invariant_witness :
    (0 < (run [Op.alloc,
        Op.dealloc { index := 0, generation := 0 }]).entries.length ∧
     ∃ e, (run [Op.alloc,
        Op.dealloc { index := 0, generation := 0 }]).entries[0]? = some e ∧
       e.is_live = false) ∧
    defensiveFallThrough (run [Op.alloc,
      Op.dealloc { index := 0, generation := 0 }]) = false ∧
    (run [Op.alloc,
        Op.dealloc { index := 0, generation := 0 }]).entries.length ≤
      (run ([Op.alloc, Op.dealloc { index := 0, generation := 0 }] ++
        [Op.alloc])).entries.length :=
  ⟨(C3_reachable_invariant
      [Op.alloc, Op.dealloc { index := 0, generation := 0 }]).1 0
      (by decide),
   (C3_reachable_invariant
      [Op.alloc, Op.dealloc { index := 0, generation := 0 }]).2.1,
   (C3_reachable_invariant
      [Op.alloc, Op.dealloc { index := 0, generation := 0 }]).2.2
      [Op.alloc]⟩

end Recs
